import Mathlib

/-!
Verification of the todo-backend core (services/todo_service.py,
schemas/todo.py, main.py) against its natural-language specification.

Modelling conventions:
* Python naive `datetime` values (the code uses `datetime.utcnow()`
  throughout) are a record of calendar fields plus seconds-within-day;
  `timedelta` addition is calendar-correct day/second advancement on the
  proleptic Gregorian calendar, which is Python's datetime arithmetic.
* The SQLAlchemy session plus the `todos` table is a `Store`: a list of
  rows and the next autoincrement id.  Queries are list filters; ORDER BY
  is a stable sort.  The default backend is SQLite (database.py falls back
  to `sqlite:///todos.db`), so NULL ordering and LIKE follow SQLite:
  NULL compares smaller than every value in ORDER BY, comparisons and
  LIKE against NULL select nothing, and LIKE is ASCII-case-insensitive
  with `%`/`_` wildcards.
* The `updated_at` column (set by the ORM on every write) and the
  `delete` operation are omitted: no claim mentions them.
* Python string tests (`if search:` etc.) are modelled by matching on
  `Option` plus an emptiness test, mirroring Python truthiness.
-/

namespace TodoBack

/-- Model of a naive Python `datetime`: calendar date plus time of day in
seconds.  `year` is an `Int` (Python years are bounded 1..9999; no claim
depends on that bound, so the model leaves the year unbounded). -/
structure PyDateTime where
  year : Int
  month : Nat
  day : Nat
  sec : Nat
deriving DecidableEq, Repr

/-- Gregorian leap year, as implemented by Python's `datetime`:
divisible by 4 and (not divisible by 100 or divisible by 400). -/
def isLeapYear (y : Int) : Bool :=
  y % 4 = 0 && (y % 100 ≠ 0 || y % 400 = 0)

/-- Number of days in a month of the proleptic Gregorian calendar;
models the Python datetime runtime. -/
def daysInMonth (y : Int) (m : Nat) : Nat :=
  if m = 2 then (if isLeapYear y then 29 else 28)
  else if m = 4 ∨ m = 6 ∨ m = 9 ∨ m = 11 then 30
  else 31

/-- Advance a datetime by one calendar day keeping the time of day:
the effect of Python's `+ timedelta(days=1)` on a naive datetime. -/
def addOneDay (d : PyDateTime) : PyDateTime :=
  if d.day < daysInMonth d.year d.month then
    { d with day := d.day + 1 }
  else if d.month = 12 then
    { d with year := d.year + 1, month := 1, day := 1 }
  else
    { d with month := d.month + 1, day := 1 }

/-- `+ timedelta(days=n)` on a naive datetime. -/
def addDays (d : PyDateTime) : Nat → PyDateTime
  | 0 => d
  | n + 1 => addDays (addOneDay d) n

/-- `+ timedelta(seconds=k)` on a naive datetime: add into the
seconds-of-day field and carry whole days into the calendar date. -/
def addSeconds (d : PyDateTime) (k : Nat) : PyDateTime :=
  addDays { d with sec := (d.sec + k) % 86400 } ((d.sec + k) / 86400)

/-- Strict chronological order on datetimes (Python `<` on naive
datetimes): lexicographic on (year, month, day, sec). -/
def dtLT (a b : PyDateTime) : Prop :=
  a.year < b.year ∨ (a.year = b.year ∧
    (a.month < b.month ∨ (a.month = b.month ∧
      (a.day < b.day ∨ (a.day = b.day ∧ a.sec < b.sec)))))

/-- Chronological order on datetimes (Python `<=` on naive datetimes). -/
def dtLE (a b : PyDateTime) : Prop :=
  a.year < b.year ∨ (a.year = b.year ∧
    (a.month < b.month ∨ (a.month = b.month ∧
      (a.day < b.day ∨ (a.day = b.day ∧ a.sec ≤ b.sec)))))

instance : DecidableRel dtLT := fun a b => by unfold dtLT; infer_instance
instance : DecidableRel dtLE := fun a b => by unfold dtLE; infer_instance

/-- ASCII lower-casing of one character, as performed by SQLite's LIKE
(which folds only A-Z) and, on this code's ASCII data, Python `.lower()`. -/
def foldChar (c : Char) : Char :=
  if 65 ≤ c.toNat ∧ c.toNat ≤ 90 then Char.ofNat (c.toNat + 32) else c

/-- ASCII `.lower()` on strings. -/
def lowerStr (s : String) : String := ⟨s.data.map foldChar⟩

/-- SQL LIKE pattern matching as implemented by SQLite's default
`like()`: `%` matches any sequence (the rest of the pattern must match
some suffix of the text), `_` matches any single character, other
characters match ASCII-case-insensitively. -/
def likeMatch : List Char → List Char → Bool
  | [], s => s.isEmpty
  | c :: p, s =>
    if c = '%' then
      s.tails.any (fun v => likeMatch p v)
    else
      match s with
      | [] => false
      | d :: s' => (if c = '_' then true else foldChar c == foldChar d) && likeMatch p s'

/-- `p` occurs as a contiguous segment of `s`. -/
def occurs (p s : List Char) : Prop := ∃ u v, s = u ++ p ++ v

/-- Body of the JSON serialization of a string array, as produced by
`json.dumps` (SQLAlchemy's JSON column serializer): items quoted and
separated by `", "`.  The stored tags contain only alphanumerics, space,
hyphen and underscore (enforced by `validate_tags`), so no JSON escaping
ever occurs. -/
def jsonBody : List (List Char) → List Char
  | [] => []
  | [x] => '"' :: x ++ ['"']
  | x :: y :: rest => ('"' :: x ++ ['"']) ++ ',' :: ' ' :: jsonBody (y :: rest)

/-- Full JSON text of the stored `tags` column: `["a", "b"]`. -/
def jsonTags (tags : List String) : List Char :=
  '[' :: jsonBody (tags.map String.data) ++ [']']

/-!
## Data model (models/todo.py)

`updated_at` is omitted (see the header comment); every other column of
the `Todo` entity is present.  Nullable columns are `Option`s.
-/

structure Todo where
  id : Nat
  user_id : Nat
  title : String
  description : Option String
  completed : Bool
  created_at : PyDateTime
  priority : Option String
  tags : Option (List String)
  due_date : Option PyDateTime
  recurrence : Option String
deriving DecidableEq, Repr

/-- The todos table plus its autoincrement counter. -/
structure Store where
  todos : List Todo
  nextId : Nat
deriving DecidableEq, Repr

/-!
## Schemas (schemas/todo.py)

Pydantic semantics modelled:
* field validators run in declaration order, so the `recurrence`
  validator sees the already-validated `due_date` value in `info.data`
  (the field default when the request omitted it);
* for `TodoUpdate`, an omitted field is distinct from an explicit null:
  the outer `Option` is "was the field present in the request"
  (pydantic's `exclude_unset`), the inner one is the JSON value.
  `title`/`completed` set explicitly to null would violate non-null
  columns and are not modelled.
-/

structure TodoCreate where
  title : String
  description : Option String := none
  priority : Option String := some "medium"
  tags : Option (List String) := none
  due_date : Option PyDateTime := none
  recurrence : Option String := some "none"
deriving DecidableEq, Repr

structure TodoUpdate where
  title : Option String := none
  description : Option (Option String) := none
  completed : Option Bool := none
  priority : Option (Option String) := none
  tags : Option (Option (List String)) := none
  due_date : Option (Option PyDateTime) := none
  recurrence : Option (Option String) := none
deriving DecidableEq, Repr

/-- Allowed tag characters: `c.isalnum() or c in ' -_'` (ASCII level). -/
def tagCharOk (c : Char) : Bool :=
  c.isAlphanum || c == ' ' || c == '-' || c == '_'

/-- `validate_tags` of both schemas: at most 10 tags, no duplicates,
each at most 50 characters drawn from the allowed set. -/
def validate_tags (l : List String) : Bool :=
  l.length ≤ 10 && decide l.Nodup &&
    l.all (fun tg => tg.length ≤ 50 && tg.data.all tagCharOk)

/-- Pattern `^(low|medium|high)$` on a provided, non-null priority. -/
def priorityPatternOk (p : String) : Bool :=
  p == "low" || p == "medium" || p == "high"

/-- Pattern `^(none|daily|weekly|monthly)$` on a provided, non-null
recurrence. -/
def recurrencePatternOk (r : String) : Bool :=
  r == "none" || r == "daily" || r == "weekly" || r == "monthly"

/-- Whole-schema validation of `TodoCreate`: the `Field` constraints plus
`validate_tags` plus `validate_recurrence_requires_due_date` (which runs
only on a provided non-null recurrence — `if v and v != "none"` — and
reads the validated `due_date` value of the same request). -/
def validate_create (c : TodoCreate) : Bool :=
  (1 ≤ c.title.length && c.title.length ≤ 500) &&
  (match c.description with | some s => s.length ≤ 5000 | none => true) &&
  (match c.priority with | some p => priorityPatternOk p | none => true) &&
  (match c.tags with | some l => validate_tags l | none => true) &&
  (match c.recurrence with | some r => recurrencePatternOk r | none => true) &&
  (match c.recurrence with
   | some r => if r ≠ "" && r ≠ "none" then c.due_date.isSome else true
   | none => true)

/-- Whole-schema validation of `TodoUpdate`.  The recurrence validator
fires only when the request itself carries a non-null recurrence, and it
checks the request's own `due_date` value (`info.data.get('due_date')`),
which is `None` both when the field was omitted and when it was an
explicit null — it never consults the stored task. -/
def validate_update (u : TodoUpdate) : Bool :=
  (match u.title with | some s => 1 ≤ s.length && s.length ≤ 500 | none => true) &&
  (match u.description with | some (some s) => s.length ≤ 5000 | _ => true) &&
  (match u.priority with | some (some p) => priorityPatternOk p | _ => true) &&
  (match u.tags with | some (some l) => validate_tags l | _ => true) &&
  (match u.recurrence with | some (some r) => recurrencePatternOk r | _ => true) &&
  (match u.recurrence with
   | some (some r) =>
     if r ≠ "" && r ≠ "none" then
       (match u.due_date with | some (some _) => true | _ => false)
     else true
   | _ => true)

/-- Python `x or default` on an optional string (None and "" are falsy). -/
def pyOrStr (v : Option String) (d : String) : String :=
  match v with
  | some s => if s = "" then d else s
  | none => d

/-!
## Service layer (services/todo_service.py) and response (main.py)
-/

/-- `_apply_user_filter`: restrict to the owner when the service holds a
user id. -/
def apply_user_filter (uid : Option Nat) (l : List Todo) : List Todo :=
  match uid with
  | some u => l.filter (fun t => t.user_id == u)
  | none => l

/-- `_calculate_overdue` (identical in todo_service.py and main.py). -/
def calculate_overdue (t : Todo) (now : PyDateTime) : Bool :=
  match t.due_date with
  | none => false
  | some d => if t.completed then false else decide (dtLT d now)

/-- Response schema of main.py (fields not needed by any claim carried
verbatim from the task). -/
structure TodoResponse where
  id : Nat
  user_id : Nat
  title : String
  completed : Bool
  due_date : Option PyDateTime
  recurrence : Option String
  overdue : Bool
deriving DecidableEq, Repr

/-- `_todo_to_response` of main.py: the overdue flag is recomputed from
the row at response time. -/
def todo_to_response (t : Todo) (now : PyDateTime) : TodoResponse :=
  { id := t.id, user_id := t.user_id, title := t.title,
    completed := t.completed, due_date := t.due_date,
    recurrence := t.recurrence, overdue := calculate_overdue t now }

/-- Search condition: `title ILIKE '%s%' OR description ILIKE '%s%'`.
A NULL description fails the comparison (SQL three-valued logic). -/
def search_cond (s : String) (t : Todo) : Bool :=
  likeMatch ('%' :: s.data ++ ['%']) t.title.data ||
    (match t.description with
     | none => false
     | some d => likeMatch ('%' :: s.data ++ ['%']) d.data)

/-- `Todo.priority == priority.lower()`; NULL priority never matches. -/
def priority_cond (p : String) (t : Todo) : Bool :=
  t.priority == some (lowerStr p)

/-- `Todo.due_date <= due_before`; NULL due_date never matches. -/
def due_before_cond (d : PyDateTime) (t : Todo) : Bool :=
  match t.due_date with
  | none => false
  | some dd => decide (dtLE dd d)

/-- `Todo.due_date >= due_after`; NULL due_date never matches. -/
def due_after_cond (d : PyDateTime) (t : Todo) : Bool :=
  match t.due_date with
  | none => false
  | some dd => decide (dtLE d dd)

/-- `Todo.tags.like(f'%"{tag}"%')`: SQL LIKE of the quoted tag against
the JSON text of the tags column; NULL tags never match. -/
def tag_cond (tag : String) (t : Todo) : Bool :=
  match t.tags with
  | none => false
  | some tl => likeMatch ('%' :: '"' :: tag.data ++ '"' :: '%' :: []) (jsonTags tl)

/-- `_build_filters`: one condition appended per supplied criterion. -/
def build_filters (search status priority : Option String)
    (due_before due_after : Option PyDateTime) (tag : Option String) :
    List (Todo → Bool) :=
  let c1 : List (Todo → Bool) :=
    match search with
    | some s => if s ≠ "" then [search_cond s] else []
    | none => []
  let c2 : List (Todo → Bool) :=
    if status == some "completed" then [fun t => t.completed == true]
    else if status == some "pending" then [fun t => t.completed == false]
    else []
  let c3 : List (Todo → Bool) :=
    match priority with
    | some p => if p ≠ "" then [priority_cond p] else []
    | none => []
  let c4 : List (Todo → Bool) :=
    match due_before with | some d => [due_before_cond d] | none => []
  let c5 : List (Todo → Bool) :=
    match due_after with | some d => [due_after_cond d] | none => []
  let c6 : List (Todo → Bool) :=
    match tag with
    | some s => if s ≠ "" then [tag_cond s] else []
    | none => []
  c1 ++ c2 ++ c3 ++ c4 ++ c5 ++ c6

/-- `and_(*conditions)` (an empty list of conditions imposes nothing). -/
def matches_filters (search status priority : Option String)
    (due_before due_after : Option PyDateTime) (tag : Option String)
    (t : Todo) : Bool :=
  (build_filters search status priority due_before due_after tag).all
    (fun c => c t)

/-- Rank used by the CASE expression of `_apply_sort`:
high=1, medium=2, low=3, anything else (including NULL)=4. -/
def priority_rank (p : Option String) : Nat :=
  if p = some "high" then 1
  else if p = some "medium" then 2
  else if p = some "low" then 3
  else 4

/-- SQLite ORDER BY comparison on a nullable datetime column, ascending:
NULL is smaller than every value. -/
def optDtLE : Option PyDateTime → Option PyDateTime → Prop
  | none, _ => True
  | some _, none => False
  | some x, some y => dtLE x y

instance : DecidableRel optDtLE := fun a b => by
  unfold optDtLE
  match a, b with
  | none, _ => exact inferInstanceAs (Decidable True)
  | some _, none => exact inferInstanceAs (Decidable False)
  | some _, some _ => infer_instance

def prioLE (a b : Todo) : Prop := priority_rank a.priority ≤ priority_rank b.priority
def dueAscLE (a b : Todo) : Prop := optDtLE a.due_date b.due_date
def dueDescLE (a b : Todo) : Prop := optDtLE b.due_date a.due_date
def titleAscLE (a b : Todo) : Prop := a.title ≤ b.title
def titleDescLE (a b : Todo) : Prop := b.title ≤ a.title
def createdAscLE (a b : Todo) : Prop := dtLE a.created_at b.created_at
def createdDescLE (a b : Todo) : Prop := dtLE b.created_at a.created_at

instance : DecidableRel prioLE := fun a b => by unfold prioLE; infer_instance
instance : DecidableRel dueAscLE := fun a b => by unfold dueAscLE; infer_instance
instance : DecidableRel dueDescLE := fun a b => by unfold dueDescLE; infer_instance
instance : DecidableRel titleAscLE := fun a b => by unfold titleAscLE; infer_instance
instance : DecidableRel titleDescLE := fun a b => by unfold titleDescLE; infer_instance
instance : DecidableRel createdAscLE := fun a b => by unfold createdAscLE; infer_instance
instance : DecidableRel createdDescLE := fun a b => by unfold createdDescLE; infer_instance

/-- `sort_order and sort_order.lower() == "asc"`. -/
def order_is_asc (so : Option String) : Bool :=
  match so with
  | none => false
  | some s => s ≠ "" && lowerStr s == "asc"

/-- `_apply_sort`.  ORDER BY is modelled as a stable sort (insertion
sort) under the column comparison; on the descending branch the priority
key still sorts by the CASE rank ascending, exactly as in the source. -/
def apply_sort (l : List Todo) (sort_by sort_order : Option String) : List Todo :=
  if order_is_asc sort_order then
    if sort_by = some "priority" then List.insertionSort prioLE l
    else if sort_by = some "due_date" then List.insertionSort dueAscLE l
    else if sort_by = some "title" then List.insertionSort titleAscLE l
    else List.insertionSort createdAscLE l
  else
    if sort_by = some "priority" then List.insertionSort prioLE l
    else if sort_by = some "due_date" then List.insertionSort dueDescLE l
    else if sort_by = some "title" then List.insertionSort titleDescLE l
    else List.insertionSort createdDescLE l

/-- `TodoService.get_all`: owner scope, then filters, then sort. -/
def get_all (store : Store) (uid : Option Nat)
    (search status priority : Option String)
    (due_before due_after : Option PyDateTime) (tag : Option String)
    (sort_by sort_order : Option String) : List Todo :=
  apply_sort
    ((apply_user_filter uid store.todos).filter
      (matches_filters search status priority due_before due_after tag))
    sort_by sort_order

/-- `TodoService.get_by_id`: owner scope, id filter, `.first()`. -/
def get_by_id (store : Store) (uid : Option Nat) (todo_id : Nat) : Option Todo :=
  ((apply_user_filter uid store.todos).filter (fun t => t.id == todo_id)).head?

/-- `TodoService.create`: insert with owner from the service, applying
the `or`-defaults of the source. -/
def create (now : PyDateTime) (store : Store) (uid : Nat) (c : TodoCreate) :
    Store × Todo :=
  let t : Todo :=
    { id := store.nextId, user_id := uid, title := c.title,
      description := c.description, completed := false, created_at := now,
      priority := some (pyOrStr c.priority "medium"),
      tags := some (c.tags.getD []),
      due_date := c.due_date,
      recurrence := some (pyOrStr c.recurrence "none") }
  ({ todos := store.todos ++ [t], nextId := store.nextId + 1 }, t)

/-- `setattr` loop of `TodoService.update` over
`model_dump(exclude_unset=True)`: only fields present in the request
change; an explicit null overwrites with NULL. -/
def apply_update (t : Todo) (u : TodoUpdate) : Todo :=
  { t with
    title := u.title.getD t.title,
    description := match u.description with | some v => v | none => t.description,
    completed := u.completed.getD t.completed,
    priority := match u.priority with | some v => v | none => t.priority,
    tags := match u.tags with | some v => v | none => t.tags,
    due_date := match u.due_date with | some v => v | none => t.due_date,
    recurrence := match u.recurrence with | some v => v | none => t.recurrence }

/-- `TodoService.update`: lookup scoped to the owner, apply the partial
update, commit.  Returns the updated row, `none` on NotFound. -/
def update (store : Store) (uid : Option Nat) (todo_id : Nat) (u : TodoUpdate) :
    Option (Store × Todo) :=
  match get_by_id store uid todo_id with
  | none => none
  | some t =>
    let t' := apply_update t u
    some ({ store with
            todos := store.todos.map (fun x => if x.id = t.id then t' else x) },
          t')

/-- Next-due-date computation of `_create_next_instance` (lines 221-255),
translated clause by clause:

    if recurrence == "daily":      next = due_date + timedelta(days=1)
    elif recurrence == "weekly":   next = due_date + timedelta(weeks=1)
    elif recurrence == "monthly":
        year, month = due_date.year, due_date.month + 1
        if month > 12: year += 1; month = 1
        day = due_date.day
        max_day = 31
        if month in [4, 6, 9, 11]: max_day = 30
        elif month == 2:
            max_day = 29 if (year % 400 == 0) or (year % 100 != 0 and year % 4 == 0) else 28
        if day > max_day: day = max_day
        next = due_date.replace(year=year, month=month, day=day)
    else: return None
-/
def nextDueDate (recurrence : String) (due : PyDateTime) : Option PyDateTime :=
  if recurrence = "daily" then
    some (addDays due 1)
  else if recurrence = "weekly" then
    some (addDays due 7)
  else if recurrence = "monthly" then
    let year : Int := if due.month + 1 > 12 then due.year + 1 else due.year
    let month : Nat := if due.month + 1 > 12 then 1 else due.month + 1
    let maxDay : Nat :=
      if month = 4 ∨ month = 6 ∨ month = 9 ∨ month = 11 then 30
      else if month = 2 then
        (if year % 400 = 0 ∨ (year % 100 ≠ 0 ∧ year % 4 = 0) then 29 else 28)
      else 31
    let day : Nat := if due.day > maxDay then maxDay else due.day
    some { due with year := year, month := month, day := day }
  else
    none

/-- `_create_next_instance`: when a next due date exists, insert a copy
of the task with it, not completed; otherwise no row is created and the
returned "next task" is None. -/
def create_next_instance (now : PyDateTime) (store : Store) (t : Todo) :
    Store × Option Todo :=
  match t.recurrence, t.due_date with
  | some r, some due =>
    match nextDueDate r due with
    | some nd =>
      let nt : Todo :=
        { id := store.nextId, user_id := t.user_id, title := t.title,
          description := t.description, completed := false, created_at := now,
          priority := t.priority, tags := t.tags,
          due_date := some nd, recurrence := t.recurrence }
      ({ todos := store.todos ++ [nt], nextId := store.nextId + 1 }, some nt)
    | none => (store, none)
  | _, _ => (store, none)

/-- `todo.recurrence and todo.recurrence != "none" and todo.due_date`
(Python truthiness: None and "" are falsy; a datetime is always truthy). -/
def shouldRecur (t : Todo) : Bool :=
  match t.recurrence, t.due_date with
  | some r, some _ => r ≠ "" && r ≠ "none"
  | _, _ => false

/-- `TodoService.mark_complete`: NotFound → none; already completed →
no-op returning `(task, None)`; otherwise set completed, and when the
recurrence guard holds let `_create_next_instance` produce the next
task. -/
def mark_complete (now : PyDateTime) (store : Store) (uid : Option Nat)
    (todo_id : Nat) : Option (Store × Todo × Option Todo) :=
  match get_by_id store uid todo_id with
  | none => none
  | some t =>
    if t.completed then
      some (store, t, none)
    else
      let t' := { t with completed := true }
      let store1 : Store :=
        { store with
          todos := store.todos.map (fun x => if x.id = t.id then t' else x) }
      if shouldRecur t' then
        let next := create_next_instance now store1 t'
        some (next.1, t', next.2)
      else
        some (store1, t', none)

/-- `TodoService.get_todos_due_soon`: owner's rows with
`completed == False`, a non-NULL due_date, `due_date <= now + hours`
and `due_date >= now`. -/
def get_todos_due_soon (store : Store) (uid : Option Nat)
    (now : PyDateTime) (hours : Nat) : List Todo :=
  let due_threshold := addSeconds now (hours * 3600)
  (apply_user_filter uid store.todos).filter (fun t =>
    (t.completed == false) &&
    (match t.due_date with
     | none => false
     | some d => decide (dtLE d due_threshold) && decide (dtLE now d)))

/-!
## Spec-side definitions

These follow the specification's words, for the refinement claims; they
are compared against the source-derived definitions above.
-/

/-- Spec-side month length: February has 29 days exactly when the year
is divisible by 4 and (not divisible by 100 or divisible by 400),
else 28; April/June/September/November have 30; the rest 31. -/
def specDaysInMonth (y : Int) (m : Nat) : Nat :=
  if m = 2 then (if y % 4 = 0 ∧ (y % 100 ≠ 0 ∨ y % 400 = 0) then 29 else 28)
  else if m = 4 ∨ m = 6 ∨ m = 9 ∨ m = 11 then 30
  else 31

/-- Spec-side monthly advance: same day-of-month in the following month,
December wrapping to January with the year incremented, the day clamped
to the last valid day of the target month. -/
def specMonthlyNext (due : PyDateTime) : PyDateTime :=
  let y : Int := if due.month = 12 then due.year + 1 else due.year
  let m : Nat := if due.month = 12 then 1 else due.month + 1
  { due with year := y, month := m, day := min due.day (specDaysInMonth y m) }

/-- Filter-tag alphabet for the amended tag-criterion claim: non-empty,
characters alphanumeric, space or hyphen (the stored-tag alphabet minus
the `_` LIKE wildcard). -/
def plainFilterTag (tg : String) : Prop :=
  tg ≠ "" ∧ tg.data.all (fun c => c.isAlphanum || c == ' ' || c == '-') = true

instance : DecidablePred plainFilterTag := fun tg =>
  inferInstanceAs
    (Decidable (tg ≠ "" ∧
      tg.data.all (fun c => c.isAlphanum || c == ' ' || c == '-') = true))

/-- Two strings equal up to ASCII case. -/
def eqUpToCase (a b : String) : Prop := a.data.map foldChar = b.data.map foldChar

/-- Replace the seconds-of-day component (proof vocabulary). -/
def withSec (d : PyDateTime) (s : Nat) : PyDateTime :=
  ⟨d.year, d.month, d.day, s⟩

/-- Strict order on the calendar-date part only (proof vocabulary). -/
def dateLT (a b : PyDateTime) : Prop :=
  a.year < b.year ∨ (a.year = b.year ∧
    (a.month < b.month ∨ (a.month = b.month ∧ a.day < b.day)))

/-- Weak order on the calendar-date part only (proof vocabulary). -/
def dateLE (a b : PyDateTime) : Prop :=
  a.year < b.year ∨ (a.year = b.year ∧
    (a.month < b.month ∨ (a.month = b.month ∧ a.day ≤ b.day)))

/-!
## Theorems

Order lemmas for the datetime model, then the claim theorems.
-/

theorem dtLE_refl (a : PyDateTime) : dtLE a a := by
  unfold dtLE; omega

theorem dtLE_trans {a b c : PyDateTime} (h₁ : dtLE a b) (h₂ : dtLE b c) : dtLE a c := by
  unfold dtLE at *; omega

theorem dtLE_total (a b : PyDateTime) : dtLE a b ∨ dtLE b a := by
  unfold dtLE; omega

theorem dtLT_asymm {a b : PyDateTime} (h : dtLT a b) : ¬ dtLE b a := by
  unfold dtLT dtLE at *
  rcases a with ⟨ya, ma, da, sa⟩
  rcases b with ⟨yb, mb, db, sb⟩
  simp only [PyDateTime.mk.injEq] at *
  omega

/-- C1: the recurrence advance function of `_create_next_instance`
computes daily = +1 day, weekly = +7 days, and monthly = same day of the
following month (December wraps to January with year increment) clamped
to the last valid day of the target month under the Gregorian leap rule;
in particular Jan 31, 2024 + monthly = Feb 29, 2024, Jan 31, 2023 +
monthly = Feb 28, 2023, and 2024-03-10T08:00 + daily/weekly =
2024-03-11T08:00 / 2024-03-17T08:00. -/
theorem recurrence_advance_correct :
    (∀ due : PyDateTime, 1 ≤ due.month → due.month ≤ 12 →
      nextDueDate "daily" due = some (addDays due 1) ∧
      nextDueDate "weekly" due = some (addDays due 7) ∧
      nextDueDate "monthly" due = some (specMonthlyNext due)) ∧
    nextDueDate "monthly" ⟨2024, 1, 31, 28800⟩ = some ⟨2024, 2, 29, 28800⟩ ∧
    nextDueDate "monthly" ⟨2023, 1, 31, 28800⟩ = some ⟨2023, 2, 28, 28800⟩ ∧
    nextDueDate "daily" ⟨2024, 3, 10, 28800⟩ = some ⟨2024, 3, 11, 28800⟩ ∧
    nextDueDate "weekly" ⟨2024, 3, 10, 28800⟩ = some ⟨2024, 3, 17, 28800⟩ := by
  refine ⟨?_, by decide, by decide, by decide, by decide⟩
  intro due h1 h12
  refine ⟨rfl, rfl, ?_⟩
  rcases due with ⟨y, m, d, s⟩
  simp only at h1 h12
  unfold nextDueDate specMonthlyNext specDaysInMonth
  simp only [String.reduceEq, if_false, reduceIte]
  simp only [Option.some.injEq, PyDateTime.mk.injEq]
  interval_cases m <;> norm_num <;> (split_ifs <;> omega)

/-- Witness for `recurrence_advance_correct` at a concrete date. -/
theorem recurrence_advance_correct_witness :
    nextDueDate "monthly" ⟨2024, 1, 31, 0⟩ = some (specMonthlyNext ⟨2024, 1, 31, 0⟩) :=
  ((recurrence_advance_correct.1 ⟨2024, 1, 31, 0⟩ (by decide) (by decide)).2).2

/-- C9: the derived overdue flag equals (due_date non-null AND not
completed AND due_date < now); it is false for every completed task, and
the response layer recomputes it from the row at read time. -/
theorem overdue_flag_correct (t : Todo) (now : PyDateTime) :
    (calculate_overdue t now = true ↔
      ∃ d, t.due_date = some d ∧ t.completed = false ∧ dtLT d now) ∧
    (t.completed = true → calculate_overdue t now = false) ∧
    (todo_to_response t now).overdue = calculate_overdue t now := by
  refine ⟨?_, ?_, rfl⟩
  · cases h : t.due_date with
    | none => simp [calculate_overdue, h]
    | some d => cases hc : t.completed <;> simp [calculate_overdue, h, hc]
  · intro hc
    cases h : t.due_date <;> simp [calculate_overdue, h, hc]

/-- Witness for `overdue_flag_correct`: a completed task with a past due
date is not overdue. -/
theorem overdue_flag_correct_witness :
    calculate_overdue
      ⟨1, 7, "a", none, true, ⟨2024, 1, 1, 0⟩, some "medium", some [],
        some ⟨2020, 1, 1, 0⟩, some "none"⟩
      ⟨2024, 6, 1, 0⟩ = false :=
  (overdue_flag_correct
    ⟨1, 7, "a", none, true, ⟨2024, 1, 1, 0⟩, some "medium", some [],
      some ⟨2020, 1, 1, 0⟩, some "none"⟩
    ⟨2024, 6, 1, 0⟩).2.1 rfl

/-- C4: marking an already-completed task complete is a no-op: the store
is unchanged, the existing task is returned, no next task is produced,
and a second call (at any later evaluation time) behaves identically,
regardless of the task's recurrence and due_date. -/
theorem mark_complete_idempotent (now now' : PyDateTime) (store : Store)
    (uid : Option Nat) (tid : Nat) (t : Todo)
    (hfind : get_by_id store uid tid = some t) (hc : t.completed = true) :
    mark_complete now store uid tid = some (store, t, none) ∧
    mark_complete now' store uid tid = some (store, t, none) := by
  unfold mark_complete
  rw [hfind]
  simp [hc]

theorem dateLE_trans {a b c : PyDateTime} (h₁ : dateLE a b) (h₂ : dateLE b c) :
    dateLE a c := by
  unfold dateLE at *; omega

theorem dateLT_of_lt_of_le {a b c : PyDateTime} (h₁ : dateLT a b) (h₂ : dateLE b c) :
    dateLT a c := by
  unfold dateLT dateLE at *; omega

theorem dateLE_of_lt {a b : PyDateTime} (h : dateLT a b) : dateLE a b := by
  unfold dateLT dateLE at *; omega

theorem dtLT_of_dateLT {a b : PyDateTime} (h : dateLT a b) : dtLT a b := by
  unfold dateLT dtLT at *; omega

theorem dateLT_addOneDay (d : PyDateTime) : dateLT d (addOneDay d) := by
  rcases d with ⟨y, m, dd, s⟩
  unfold addOneDay dateLT
  split_ifs <;> simp_all

theorem dateLE_addDays (d : PyDateTime) (n : Nat) : dateLE d (addDays d n) := by
  induction n generalizing d with
  | zero => unfold addDays dateLE; omega
  | succ m ih =>
    show dateLE d (addDays (addOneDay d) m)
    exact dateLE_trans (dateLE_of_lt (dateLT_addOneDay d)) (ih (addOneDay d))

theorem dateLT_addDays (d : PyDateTime) (n : Nat) (h : 1 ≤ n) :
    dateLT d (addDays d n) := by
  match n, h with
  | m + 1, _ =>
    show dateLT d (addDays (addOneDay d) m)
    exact dateLT_of_lt_of_le (dateLT_addOneDay d) (dateLE_addDays (addOneDay d) m)

theorem addOneDay_withSec (d : PyDateTime) (s : Nat) :
    addOneDay (withSec d s) = withSec (addOneDay d) s := by
  rcases d with ⟨y, m, dd, s₀⟩
  unfold addOneDay withSec
  split_ifs <;> rfl

theorem addDays_withSec (d : PyDateTime) (n : Nat) (s : Nat) :
    addDays (withSec d s) n = withSec (addDays d n) s := by
  induction n generalizing d with
  | zero => rfl
  | succ m ih =>
    show addDays (addOneDay (withSec d s)) m = withSec (addDays (addOneDay d) m) s
    rw [addOneDay_withSec]
    exact ih (addOneDay d)

theorem sec_withSec (d : PyDateTime) (s : Nat) : (withSec d s).sec = s := rfl

theorem addDays_sec (d : PyDateTime) (n : Nat) : (addDays d n).sec = d.sec := by
  induction n generalizing d with
  | zero => rfl
  | succ m ih =>
    show (addDays (addOneDay d) m).sec = d.sec
    rw [ih (addOneDay d)]
    rcases d with ⟨y, mm, dd, s⟩
    unfold addOneDay
    split_ifs <;> rfl

theorem addDays_add (d : PyDateTime) (m n : Nat) :
    addDays d (m + n) = addDays (addDays d m) n := by
  induction m generalizing d with
  | zero => rw [Nat.zero_add]; rfl
  | succ k ih =>
    have h1 : k + 1 + n = (k + n) + 1 := by omega
    rw [h1]
    show addDays (addOneDay d) (k + n) = addDays (addDays (addOneDay d) k) n
    exact ih (addOneDay d)

theorem addSeconds_eq (d : PyDateTime) (k : Nat) :
    addSeconds d k
      = addDays (withSec d ((d.sec + k) % 86400)) ((d.sec + k) / 86400) := rfl

theorem addSeconds_add (d : PyDateTime) (a b : Nat) :
    addSeconds d (a + b) = addSeconds (addSeconds d a) b := by
  rw [addSeconds_eq, addSeconds_eq, addSeconds_eq, addDays_sec, sec_withSec,
    ← addDays_withSec]
  have h0 : withSec (withSec d ((d.sec + a) % 86400))
        (((d.sec + a) % 86400 + b) % 86400)
      = withSec d (((d.sec + a) % 86400 + b) % 86400) := rfl
  rw [h0, ← addDays_add]
  have h1 : ((d.sec + a) % 86400 + b) % 86400 = (d.sec + (a + b)) % 86400 := by
    omega
  have h2 : (d.sec + a) / 86400 + ((d.sec + a) % 86400 + b) / 86400
      = (d.sec + (a + b)) / 86400 := by
    omega
  rw [h1, h2]

theorem dtLT_withSec (d : PyDateTime) (s' : Nat) (h : d.sec < s') :
    dtLT d (withSec d s') :=
  Or.inr ⟨rfl, Or.inr ⟨rfl, Or.inr ⟨rfl, h⟩⟩⟩

theorem dtLT_addSeconds (d : PyDateTime) (k : Nat) (hk : 1 ≤ k) :
    dtLT d (addSeconds d k) := by
  rw [addSeconds_eq]
  by_cases hn : (d.sec + k) / 86400 = 0
  · rw [hn]
    show dtLT d (withSec d ((d.sec + k) % 86400))
    exact dtLT_withSec d _ (by omega)
  · refine dtLT_of_dateLT ?_
    have h1 : dateLT (withSec d ((d.sec + k) % 86400))
        (addDays (withSec d ((d.sec + k) % 86400)) ((d.sec + k) / 86400)) :=
      dateLT_addDays _ _ (by omega)
    exact h1

theorem dtLE_of_dtLT {a b : PyDateTime} (h : dtLT a b) : dtLE a b := by
  unfold dtLT dtLE at *; omega

/-- Membership is invariant under `_apply_sort` (every branch is a
permutation of its input). -/
theorem mem_apply_sort {a : Todo} {l : List Todo} (sb so : Option String) :
    a ∈ apply_sort l sb so ↔ a ∈ l := by
  unfold apply_sort
  split_ifs <;> simp

/-- C5: the due-soon query returns exactly the owner's incomplete tasks
whose due_date lies in `[now, now + hours]`: the far bound is included
exactly, one second past it is excluded, and one second before `now` is
excluded; tasks with no due_date or completed are never returned. -/
theorem due_soon_window_correct (store : Store) (uid : Option Nat)
    (now : PyDateTime) (hours : Nat) (h1 : 1 ≤ hours) (h24 : hours ≤ 24) :
    (∀ t : Todo,
      t ∈ get_todos_due_soon store uid now hours ↔
        t ∈ apply_user_filter uid store.todos ∧ t.completed = false ∧
          ∃ d, t.due_date = some d ∧ dtLE now d ∧
            dtLE d (addSeconds now (hours * 3600))) ∧
    (∀ t : Todo, t.due_date = some (addSeconds now (hours * 3600)) →
      t.completed = false → t ∈ apply_user_filter uid store.todos →
      t ∈ get_todos_due_soon store uid now hours) ∧
    (∀ t : Todo, t.due_date = some (addSeconds now (hours * 3600 + 1)) →
      t ∉ get_todos_due_soon store uid now hours) ∧
    (∀ (t : Todo) (d : PyDateTime), t.due_date = some d → addSeconds d 1 = now →
      t ∉ get_todos_due_soon store uid now hours) := by
  have hmem : ∀ t : Todo,
      t ∈ get_todos_due_soon store uid now hours ↔
        t ∈ apply_user_filter uid store.todos ∧ t.completed = false ∧
          ∃ d, t.due_date = some d ∧ dtLE now d ∧
            dtLE d (addSeconds now (hours * 3600)) := by
    intro t
    unfold get_todos_due_soon
    rw [List.mem_filter]
    cases h : t.due_date with
    | none => simp [h]
    | some d =>
      cases hc : t.completed <;> simp [h, hc, and_comm]
  refine ⟨hmem, ?_, ?_, ?_⟩
  · intro t hdue hc hu
    refine (hmem t).mpr ⟨hu, hc, addSeconds now (hours * 3600), hdue, ?_, dtLE_refl _⟩
    exact dtLE_of_dtLT (dtLT_addSeconds now (hours * 3600) (by omega))
  · intro t hdue hin
    obtain ⟨-, -, d, hd, -, hle⟩ := (hmem t).mp hin
    rw [hdue, Option.some.injEq] at hd
    subst hd
    have hlt : dtLT (addSeconds now (hours * 3600))
        (addSeconds now (hours * 3600 + 1)) := by
      rw [addSeconds_add now (hours * 3600) 1]
      exact dtLT_addSeconds _ 1 (by omega)
    exact dtLT_asymm hlt hle
  · intro t d hd hnow hin
    obtain ⟨-, -, d', hd', hge, -⟩ := (hmem t).mp hin
    rw [hd, Option.some.injEq] at hd'
    subst hd'
    have hlt : dtLT d now := by
      rw [← hnow]
      exact dtLT_addSeconds d 1 (by omega)
    exact dtLT_asymm hlt hge

/-- Witness for `due_soon_window_correct`: a task due exactly at
`now + 1h` is returned by the due-soon query with hours = 1. -/
theorem due_soon_window_correct_witness :
    (⟨1, 7, "a", none, false, ⟨2024, 1, 1, 0⟩, some "medium", some [],
        some ⟨2024, 1, 1, 3600⟩, some "none"⟩ : Todo) ∈
      get_todos_due_soon
        ⟨[⟨1, 7, "a", none, false, ⟨2024, 1, 1, 0⟩, some "medium", some [],
            some ⟨2024, 1, 1, 3600⟩, some "none"⟩], 2⟩
        (some 7) ⟨2024, 1, 1, 0⟩ 1 :=
  (due_soon_window_correct
      ⟨[⟨1, 7, "a", none, false, ⟨2024, 1, 1, 0⟩, some "medium", some [],
          some ⟨2024, 1, 1, 3600⟩, some "none"⟩], 2⟩
      (some 7) ⟨2024, 1, 1, 0⟩ 1 (by decide) (by decide)).2.1
    ⟨1, 7, "a", none, false, ⟨2024, 1, 1, 0⟩, some "medium", some [],
        some ⟨2024, 1, 1, 3600⟩, some "none"⟩
    (by decide) rfl (by decide)

/-- C6: cross-owner isolation — a task owned by `u1` never appears in a
list/search/due-soon query scoped to a different owner `u2`, and a direct
id lookup scoped to `u2` returns NotFound (none). -/
theorem cross_owner_isolation (store : Store) (u1 u2 : Nat) (t : Todo)
    (se st pr : Option String) (db da : Option PyDateTime)
    (tg sb so : Option String) (now : PyDateTime) (hours : Nat)
    (hu : t.user_id = u1) (hne : u1 ≠ u2) :
    t ∉ get_all store (some u2) se st pr db da tg sb so ∧
    t ∉ get_todos_due_soon store (some u2) now hours ∧
    (t ∈ store.todos → (store.todos.map Todo.id).Nodup →
      get_by_id store (some u2) t.id = none) := by
  have huser : ∀ l : List Todo, t ∈ apply_user_filter (some u2) l → False := by
    intro l hmem
    have := (List.mem_filter.mp hmem).2
    simp only [beq_iff_eq] at this
    exact hne (hu ▸ this)
  refine ⟨?_, ?_, ?_⟩
  · intro hmem
    rw [get_all, mem_apply_sort] at hmem
    exact huser _ (List.mem_filter.mp hmem).1
  · intro hmem
    unfold get_todos_due_soon at hmem
    exact huser _ (List.mem_filter.mp hmem).1
  · intro htin hnodup
    unfold get_by_id
    have : (apply_user_filter (some u2) store.todos).filter
        (fun x => x.id == t.id) = [] := by
      rw [List.filter_eq_nil_iff]
      intro x hx hid
      have hxin : x ∈ store.todos := List.mem_of_mem_filter hx
      have hxu : x.user_id = u2 := by
        have := (List.mem_filter.mp hx).2
        simpa using this
      have hxid : x.id = t.id := by simpa using hid
      have hxt : x = t :=
        List.inj_on_of_nodup_map hnodup hxin htin hxid
      exact hne (hu ▸ hxt ▸ hxu)
    rw [this]
    rfl

/-- Witness for `cross_owner_isolation` with two concrete owners. -/
theorem cross_owner_isolation_witness :
    (⟨1, 1, "a", none, false, ⟨2024, 1, 1, 0⟩, none, none, none, none⟩ : Todo) ∉
      get_all ⟨[⟨1, 1, "a", none, false, ⟨2024, 1, 1, 0⟩, none, none, none, none⟩,
                ⟨2, 2, "b", none, false, ⟨2024, 1, 1, 0⟩, none, none, none, none⟩], 3⟩
        (some 2) none none none none none none none none ∧
    get_by_id ⟨[⟨1, 1, "a", none, false, ⟨2024, 1, 1, 0⟩, none, none, none, none⟩,
                ⟨2, 2, "b", none, false, ⟨2024, 1, 1, 0⟩, none, none, none, none⟩], 3⟩
        (some 2) 1 = none := by
  have h := cross_owner_isolation
    ⟨[⟨1, 1, "a", none, false, ⟨2024, 1, 1, 0⟩, none, none, none, none⟩,
      ⟨2, 2, "b", none, false, ⟨2024, 1, 1, 0⟩, none, none, none, none⟩], 3⟩
    1 2 ⟨1, 1, "a", none, false, ⟨2024, 1, 1, 0⟩, none, none, none, none⟩
    none none none none none none none none ⟨2024, 1, 1, 0⟩ 1 rfl (by decide)
  exact ⟨h.1, h.2.2 (by decide) (by decide)⟩

/-- C10: a partial update that sets completed = true touches only the
targeted task — same row count, same id counter, every other task still
present — and creates no next instance, whereas `mark_complete` on the
same not-yet-completed recurring task (valid recurrence, due date set)
creates exactly one next instance with the next id, not completed. -/
theorem update_vs_complete_frame (now : PyDateTime) (store : Store)
    (uid : Option Nat) (tid : Nat) (t : Todo) (r : String)
    (hfind : get_by_id store uid tid = some t)
    (hc : t.completed = false)
    (hr : t.recurrence = some r)
    (hr3 : r = "daily" ∨ r = "weekly" ∨ r = "monthly")
    (hdue : t.due_date.isSome = true) :
    (∃ st' : Store,
      update store uid tid { completed := some true } =
        some (st', { t with completed := true }) ∧
      st'.nextId = store.nextId ∧
      st'.todos.length = store.todos.length ∧
      (∀ x ∈ store.todos, x.id ≠ t.id → x ∈ st'.todos)) ∧
    (∃ (st'' : Store) (nt : Todo),
      mark_complete now store uid tid =
        some (st'', { t with completed := true }, some nt) ∧
      st''.todos.length = store.todos.length + 1 ∧
      nt.id = store.nextId ∧ nt.completed = false ∧
      nt.user_id = t.user_id ∧ nt.recurrence = t.recurrence) := by
  obtain ⟨due, hdue'⟩ := Option.isSome_iff_exists.mp hdue
  constructor
  · refine ⟨⟨store.todos.map (fun x => if x.id = t.id then
        apply_update t { completed := some true } else x), store.nextId⟩,
      ?_, rfl, by simp, ?_⟩
    · unfold update
      rw [hfind]
      rfl
    · intro x hx hxid
      refine List.mem_map.mpr ⟨x, hx, ?_⟩
      simp [hxid]
  · have hnd : ∃ nd, nextDueDate r due = some nd := by
      rcases hr3 with rfl | rfl | rfl
      · exact ⟨_, rfl⟩
      · exact ⟨_, rfl⟩
      · unfold nextDueDate
        simp
    obtain ⟨nd, hnd⟩ := hnd
    have hrecur : shouldRecur { t with completed := true } = true := by
      unfold shouldRecur
      simp only [hr, hdue']
      rcases hr3 with rfl | rfl | rfl <;> decide
    refine ⟨⟨store.todos.map (fun x => if x.id = t.id then
          { t with completed := true } else x)
        ++ [⟨store.nextId, t.user_id, t.title, t.description, false, now,
            t.priority, t.tags, some nd, t.recurrence⟩], store.nextId + 1⟩,
      ⟨store.nextId, t.user_id, t.title, t.description, false, now,
          t.priority, t.tags, some nd, t.recurrence⟩,
      ?_, by simp, rfl, rfl, rfl, rfl⟩
    unfold mark_complete
    rw [hfind]
    simp only [hc, Bool.false_eq_true, if_false, hrecur, if_true]
    unfold create_next_instance
    simp only [hr, hdue', hnd]

/-- Witness for `update_vs_complete_frame` on a one-task store. -/
theorem update_vs_complete_frame_witness :
    ∃ (st'' : Store) (nt : Todo),
      mark_complete ⟨2024, 1, 1, 0⟩
        ⟨[⟨1, 7, "a", none, false, ⟨2024, 1, 1, 0⟩, some "medium", some [],
            some ⟨2024, 1, 2, 0⟩, some "daily"⟩], 2⟩
        (some 7) 1 =
      some (st'',
        { (⟨1, 7, "a", none, false, ⟨2024, 1, 1, 0⟩, some "medium", some [],
            some ⟨2024, 1, 2, 0⟩, some "daily"⟩ : Todo) with completed := true },
        some nt) ∧
      st''.todos.length = 2 ∧ nt.id = 2 ∧ nt.completed = false ∧
      nt.user_id = 7 ∧ nt.recurrence = some "daily" :=
  (update_vs_complete_frame ⟨2024, 1, 1, 0⟩
    ⟨[⟨1, 7, "a", none, false, ⟨2024, 1, 1, 0⟩, some "medium", some [],
        some ⟨2024, 1, 2, 0⟩, some "daily"⟩], 2⟩
    (some 7) 1
    ⟨1, 7, "a", none, false, ⟨2024, 1, 1, 0⟩, some "medium", some [],
        some ⟨2024, 1, 2, 0⟩, some "daily"⟩
    "daily" (by decide) rfl rfl (Or.inl rfl) rfl).2

/-- Witness for `mark_complete_idempotent`: completing a completed
recurring task with a due date returns it unchanged with no next task. -/
theorem mark_complete_idempotent_witness :
    mark_complete ⟨2024, 1, 1, 0⟩
      ⟨[⟨1, 7, "a", none, true, ⟨2024, 1, 1, 0⟩, some "medium", some [],
          some ⟨2024, 1, 2, 0⟩, some "daily"⟩], 2⟩
      (some 7) 1 =
    some (⟨[⟨1, 7, "a", none, true, ⟨2024, 1, 1, 0⟩, some "medium", some [],
          some ⟨2024, 1, 2, 0⟩, some "daily"⟩], 2⟩,
      ⟨1, 7, "a", none, true, ⟨2024, 1, 1, 0⟩, some "medium", some [],
          some ⟨2024, 1, 2, 0⟩, some "daily"⟩, none) :=
  (mark_complete_idempotent ⟨2024, 1, 1, 0⟩ ⟨2024, 1, 1, 0⟩ _ (some 7) 1 _
    (by decide) rfl).1

theorem optDtLE_trans :
    ∀ {x y z : Option PyDateTime}, optDtLE x y → optDtLE y z → optDtLE x z
  | none, _, _, _, _ => trivial
  | some _, none, _, h₁, _ => h₁.elim
  | some _, some _, none, _, h₂ => h₂.elim
  | some _, some _, some _, h₁, h₂ => dtLE_trans h₁ h₂

theorem optDtLE_total : ∀ (x y : Option PyDateTime), optDtLE x y ∨ optDtLE y x
  | none, _ => Or.inl trivial
  | some _, none => Or.inr trivial
  | some a, some b => dtLE_total a b

theorem sorted_insertionSort_prio (l : List Todo) :
    List.Sorted prioLE (List.insertionSort prioLE l) := by
  haveI : IsTotal Todo prioLE := ⟨fun _ _ => Nat.le_total _ _⟩
  haveI : IsTrans Todo prioLE := ⟨fun _ _ _ h₁ h₂ => Nat.le_trans h₁ h₂⟩
  exact List.sorted_insertionSort prioLE l

theorem sorted_insertionSort_dueAsc (l : List Todo) :
    List.Sorted dueAscLE (List.insertionSort dueAscLE l) := by
  haveI : IsTotal Todo dueAscLE := ⟨fun a b => optDtLE_total _ _⟩
  haveI : IsTrans Todo dueAscLE := ⟨fun _ _ _ h₁ h₂ => optDtLE_trans h₁ h₂⟩
  exact List.sorted_insertionSort dueAscLE l

theorem sorted_insertionSort_dueDesc (l : List Todo) :
    List.Sorted dueDescLE (List.insertionSort dueDescLE l) := by
  haveI : IsTotal Todo dueDescLE := ⟨fun a b => (optDtLE_total _ _).symm⟩
  haveI : IsTrans Todo dueDescLE := ⟨fun _ _ _ h₁ h₂ => optDtLE_trans h₂ h₁⟩
  exact List.sorted_insertionSort dueDescLE l

/-- Both direction requests produce the same priority sort. -/
theorem apply_sort_priority (l : List Todo) (so : Option String) :
    apply_sort l (some "priority") so = List.insertionSort prioLE l := by
  unfold apply_sort
  by_cases h : order_is_asc so = true <;> simp [h]

theorem apply_sort_due_desc (l : List Todo) :
    apply_sort l (some "due_date") (some "desc")
      = List.insertionSort dueDescLE l := by
  have h : order_is_asc (some "desc") = false := by decide
  unfold apply_sort
  simp [h]

theorem apply_sort_due_asc (l : List Todo) :
    apply_sort l (some "due_date") (some "asc")
      = List.insertionSort dueAscLE l := by
  have h : order_is_asc (some "asc") = true := by decide
  unfold apply_sort
  simp [h]

/-- C2: sorting by the priority key with direction asc and with
direction desc produce the same list, ordered by rank ascending
(high = 1 first, then medium = 2, low = 3, null/invalid = 4 last):
the descending request is not inverted for the priority key. -/
theorem priority_sort_direction_quirk (l : List Todo) :
    apply_sort l (some "priority") (some "asc")
      = apply_sort l (some "priority") (some "desc") ∧
    List.Sorted prioLE (apply_sort l (some "priority") (some "desc")) ∧
    List.Perm (apply_sort l (some "priority") (some "desc")) l := by
  rw [apply_sort_priority, apply_sort_priority]
  exact ⟨rfl, sorted_insertionSort_prio l, List.perm_insertionSort prioLE l⟩

/-- C8 counterexample: sorting by due_date in the ascending direction
places the entry with a NULL due_date *first*, before the entry with a
due date — SQLite orders NULL below every value, and `_apply_sort` emits
a plain `ORDER BY due_date ASC` with no NULLS LAST. -/
theorem null_due_date_sorts_first_asc :
    apply_sort
      [⟨2, 7, "b", none, false, ⟨2024, 1, 1, 0⟩, none, none,
          some ⟨2024, 1, 2, 0⟩, none⟩,
       ⟨1, 7, "a", none, false, ⟨2024, 1, 1, 0⟩, none, none, none, none⟩]
      (some "due_date") (some "asc")
      = [⟨1, 7, "a", none, false, ⟨2024, 1, 1, 0⟩, none, none, none, none⟩,
         ⟨2, 7, "b", none, false, ⟨2024, 1, 1, 0⟩, none, none,
            some ⟨2024, 1, 2, 0⟩, none⟩] ∧
    (⟨1, 7, "a", none, false, ⟨2024, 1, 1, 0⟩, none, none, none,
        none⟩ : Todo).due_date = none ∧
    (⟨2, 7, "b", none, false, ⟨2024, 1, 1, 0⟩, none, none,
        some ⟨2024, 1, 2, 0⟩, none⟩ : Todo).due_date ≠ none := by
  refine ⟨?_, rfl, by decide⟩
  decide

/-- C8 amended: entries with a null key value sort after all non-null
entries for the priority key in both directions and for the due_date key
in the descending direction; in the ascending due_date direction NULLs
sort first (SQLite NULL-smallest semantics).  created_at and title are
non-nullable columns, so the property is vacuous for them. -/
theorem nulls_position_amended :
    (∀ (l : List Todo) (so : Option String)
       (i j : Fin (apply_sort l (some "priority") so).length),
       ((apply_sort l (some "priority") so).get i).priority = none →
       ((apply_sort l (some "priority") so).get j).priority ∈
         [some "high", some "medium", some "low"] →
       (j : Nat) < (i : Nat)) ∧
    (∀ (l : List Todo)
       (i j : Fin (apply_sort l (some "due_date") (some "desc")).length),
       ((apply_sort l (some "due_date") (some "desc")).get i).due_date = none →
       ((apply_sort l (some "due_date") (some "desc")).get j).due_date ≠ none →
       (j : Nat) < (i : Nat)) ∧
    (∀ (l : List Todo)
       (i j : Fin (apply_sort l (some "due_date") (some "asc")).length),
       ((apply_sort l (some "due_date") (some "asc")).get i).due_date = none →
       ((apply_sort l (some "due_date") (some "asc")).get j).due_date ≠ none →
       (i : Nat) < (j : Nat)) := by
  refine ⟨?_, ?_, ?_⟩
  · intro l so i j hi hj
    have hsorted : List.Sorted prioLE (apply_sort l (some "priority") so) := by
      rw [apply_sort_priority]
      exact sorted_insertionSort_prio l
    have hpair := List.pairwise_iff_get.mp hsorted
    rcases Nat.lt_trichotomy (i : Nat) (j : Nat) with hlt | heq | hgt
    · exfalso
      have hrel := hpair i j hlt
      unfold prioLE at hrel
      rw [hi] at hrel
      simp only [List.mem_cons, List.not_mem_nil, or_false] at hj
      rcases hj with hj | hj | hj <;> rw [hj] at hrel <;>
        simp [priority_rank] at hrel
    · exfalso
      have hij : i = j := Fin.ext heq
      rw [← hij, hi] at hj
      simp at hj
    · exact hgt
  · intro l i j hi hj
    have hsorted : List.Sorted dueDescLE
        (apply_sort l (some "due_date") (some "desc")) := by
      rw [apply_sort_due_desc]
      exact sorted_insertionSort_dueDesc l
    have hpair := List.pairwise_iff_get.mp hsorted
    rcases Nat.lt_trichotomy (i : Nat) (j : Nat) with hlt | heq | hgt
    · exfalso
      have hrel := hpair i j hlt
      unfold dueDescLE at hrel
      rw [hi] at hrel
      obtain ⟨v, hv⟩ := Option.ne_none_iff_exists'.mp hj
      rw [hv] at hrel
      exact hrel
    · exfalso
      have hij : i = j := Fin.ext heq
      rw [← hij, hi] at hj
      exact hj rfl
    · exact hgt
  · intro l i j hi hj
    have hsorted : List.Sorted dueAscLE
        (apply_sort l (some "due_date") (some "asc")) := by
      rw [apply_sort_due_asc]
      exact sorted_insertionSort_dueAsc l
    have hpair := List.pairwise_iff_get.mp hsorted
    rcases Nat.lt_trichotomy (i : Nat) (j : Nat) with hlt | heq | hgt
    · exact hlt
    · exfalso
      have hij : i = j := Fin.ext heq
      rw [← hij, hi] at hj
      exact hj rfl
    · exfalso
      have hrel := hpair j i hgt
      unfold dueAscLE at hrel
      rw [hi] at hrel
      obtain ⟨v, hv⟩ := Option.ne_none_iff_exists'.mp hj
      rw [hv] at hrel
      exact hrel

/-- Witness for `nulls_position_amended`: on a concrete two-element list
sorted by due_date descending, the NULL entry sits at index 1, after the
non-null entry at index 0. -/
theorem nulls_position_amended_witness : (0 : Nat) < 1 :=
  nulls_position_amended.2.1
    [⟨1, 7, "a", none, false, ⟨2024, 1, 1, 0⟩, none, none, none, none⟩,
     ⟨2, 7, "b", none, false, ⟨2024, 1, 1, 0⟩, none, none,
        some ⟨2024, 1, 2, 0⟩, none⟩]
    ⟨1, by decide⟩ ⟨0, by decide⟩ (by decide) (by decide)

/-- C3 counterexample: a partial update that sets only `due_date` to an
explicit null passes `TodoUpdate` validation (the recurrence validator
fires only when the request carries a recurrence), is written by the
update operation, and leaves a stored task with recurrence = "daily" and
due_date = NULL — so the invariant is not enforced at update. -/
theorem recurrence_invariant_update_hole :
    validate_update { due_date := some none } = true ∧
    update
      ⟨[⟨1, 7, "a", none, false, ⟨2024, 1, 1, 0⟩, some "medium", some [],
          some ⟨2024, 2, 1, 0⟩, some "daily"⟩], 2⟩
      (some 7) 1 { due_date := some none } =
      some (⟨[⟨1, 7, "a", none, false, ⟨2024, 1, 1, 0⟩, some "medium", some [],
            none, some "daily"⟩], 2⟩,
        ⟨1, 7, "a", none, false, ⟨2024, 1, 1, 0⟩, some "medium", some [],
            none, some "daily"⟩) ∧
    (⟨1, 7, "a", none, false, ⟨2024, 1, 1, 0⟩, some "medium", some [],
        none, some "daily"⟩ : Todo).recurrence = some "daily" ∧
    (⟨1, 7, "a", none, false, ⟨2024, 1, 1, 0⟩, some "medium", some [],
        none, some "daily"⟩ : Todo).due_date = none := by
  refine ⟨by decide, ?_, rfl, rfl⟩
  decide

/-- C3 amended: validation enforces the invariant at creation — a
validated create request always yields a task whose recurrence ≠ none
implies a set due_date — while at update it is only payload-local: a
request that sets recurrence ≠ none must itself carry a non-null
due_date, but a request that sets due_date to null without touching
recurrence passes validation and is written (see the counterexample). -/
theorem recurrence_requires_due_date_amended :
    (∀ (c : TodoCreate) (now : PyDateTime) (store : Store) (uid : Nat)
       (r : String),
      validate_create c = true →
      (create now store uid c).2.recurrence = some r → r ≠ "none" →
      (create now store uid c).2.due_date.isSome = true) ∧
    (∀ (u : TodoUpdate) (r : String),
      validate_update u = true → u.recurrence = some (some r) →
      r ≠ "none" → ∃ d, u.due_date = some (some d)) := by
  constructor
  · intro c now store uid r hval hrec hrne
    simp only [validate_create, Bool.and_eq_true] at hval
    obtain ⟨-, hinv⟩ := hval
    have hdue : (create now store uid c).2.due_date = c.due_date := rfl
    have hrec' : (create now store uid c).2.recurrence
        = some (pyOrStr c.recurrence "none") := rfl
    rw [hrec', Option.some.injEq] at hrec
    rw [hdue]
    cases hcr : c.recurrence with
    | none =>
      exfalso
      rw [hcr] at hrec
      exact hrne (by rw [← hrec]; rfl)
    | some s =>
      rw [hcr] at hinv hrec
      by_cases hs : s = ""
      · exfalso
        rw [hs] at hrec
        exact hrne (by rw [← hrec]; rfl)
      · have hsr : s = r := by
          rw [← hrec]
          show s = if s = "" then "none" else s
          rw [if_neg hs]
        subst hsr
        simpa [hs, hrne] using hinv
  · intro u r hval hrec hrne
    simp only [validate_update, Bool.and_eq_true] at hval
    obtain ⟨⟨⟨⟨⟨-, -⟩, -⟩, -⟩, hpat⟩, hinv⟩ := hval
    rw [hrec] at hpat hinv
    have hrne' : r ≠ "" := by
      intro h
      rw [h] at hpat
      simp [recurrencePatternOk] at hpat
    have hinv' : (match u.due_date with
        | some (some _) => true
        | _ => false) = true := by
      simpa [hrne, hrne'] using hinv
    cases hdd : u.due_date with
    | none => rw [hdd] at hinv'; exact absurd hinv' (by simp)
    | some v =>
      cases v with
      | none => rw [hdd] at hinv'; exact absurd hinv' (by simp)
      | some d => exact ⟨d, rfl⟩

/-- Witness for `recurrence_requires_due_date_amended`: a validated
create request with recurrence daily and a due date yields a task whose
due_date is set; a validated update request setting recurrence daily
carries a non-null due_date. -/
theorem recurrence_requires_due_date_amended_witness :
    (create ⟨2024, 1, 1, 0⟩ ⟨[], 1⟩ 7
      { title := "a", due_date := some ⟨2024, 2, 1, 0⟩,
        recurrence := some "daily" }).2.due_date.isSome = true ∧
    ∃ d, ({ recurrence := some (some "daily"),
            due_date := some (some ⟨2024, 2, 1, 0⟩) } : TodoUpdate).due_date
      = some (some d) :=
  ⟨recurrence_requires_due_date_amended.1
      { title := "a", due_date := some ⟨2024, 2, 1, 0⟩,
        recurrence := some "daily" }
      ⟨2024, 1, 1, 0⟩ ⟨[], 1⟩ 7 "daily" (by decide) rfl (by decide),
   recurrence_requires_due_date_amended.2
      { recurrence := some (some "daily"),
        due_date := some (some ⟨2024, 2, 1, 0⟩) }
      "daily" (by decide) rfl (by decide)⟩

theorem char_ne_of_toNat_ne {a b : Char} (h : a.toNat ≠ b.toNat) : a ≠ b :=
  fun hab => h (hab ▸ rfl)

theorem toNat_ofNat_lower {n : Nat} (h1 : 97 ≤ n) (h2 : n ≤ 122) :
    (Char.ofNat n).toNat = n := by
  unfold Char.ofNat
  rw [dif_pos]
  · rfl
  · exact Or.inl (by omega)

/-- For a character of the stored-tag alphabet, the ASCII fold is never
one of the JSON structural characters. -/
theorem tagCharOk_fold_ne (c : Char) (h : tagCharOk c = true) :
    foldChar c ≠ '"' ∧ foldChar c ≠ ',' ∧ foldChar c ≠ '[' ∧ foldChar c ≠ ']' := by
  unfold foldChar
  split_ifs with hc
  · have h97 : (Char.ofNat (c.toNat + 32)).toNat = c.toNat + 32 :=
      toNat_ofNat_lower (by omega) (by omega)
    refine ⟨char_ne_of_toNat_ne ?_, char_ne_of_toNat_ne ?_,
      char_ne_of_toNat_ne ?_, char_ne_of_toNat_ne ?_⟩
    · rw [h97]; show c.toNat + 32 ≠ 34; omega
    · rw [h97]; show c.toNat + 32 ≠ 44; omega
    · rw [h97]; show c.toNat + 32 ≠ 91; omega
    · rw [h97]; show c.toNat + 32 ≠ 93; omega
  · refine ⟨fun heq => ?_, fun heq => ?_, fun heq => ?_, fun heq => ?_⟩ <;>
      (rw [heq] at h; revert h; decide)

/-- Filter-tag characters are themselves not LIKE wildcards, and their
folds avoid the JSON structural characters. -/
theorem filterCharOk_props (c : Char)
    (h : (c.isAlphanum || c == ' ' || c == '-') = true) :
    c ≠ '%' ∧ c ≠ '_' ∧ foldChar c ≠ '"' ∧ foldChar c ≠ ',' ∧
      foldChar c ≠ '[' ∧ foldChar c ≠ ']' := by
  have h' : tagCharOk c = true := by
    unfold tagCharOk
    simp only [Bool.or_eq_true] at h ⊢
    tauto
  obtain ⟨h1, h2, h3, h4⟩ := tagCharOk_fold_ne c h'
  refine ⟨fun heq => ?_, fun heq => ?_, h1, h2, h3, h4⟩ <;>
    (rw [heq] at h; revert h; decide)

theorem likeMatch_nil (s : List Char) : likeMatch [] s = s.isEmpty := rfl

theorem likeMatch_pct (p s : List Char) :
    likeMatch ('%' :: p) s = s.tails.any (fun v => likeMatch p v) := rfl

theorem likeMatch_cons_nil {c : Char} (p : List Char) (hc : c ≠ '%') :
    likeMatch (c :: p) [] = false := by
  unfold likeMatch
  rw [if_neg hc]

theorem likeMatch_cons_cons {c : Char} (p : List Char) (d : Char)
    (s : List Char) (hc : c ≠ '%') :
    likeMatch (c :: p) (d :: s)
      = ((if c = '_' then true else foldChar c == foldChar d) && likeMatch p s) := by
  conv_lhs => unfold likeMatch
  rw [if_neg hc]

/-- A wildcard-free pattern LIKE-matches exactly the strings with the
same ASCII fold. -/
theorem likeMatch_noWild :
    ∀ (p s : List Char), (∀ c ∈ p, c ≠ '%' ∧ c ≠ '_') →
      (likeMatch p s = true ↔ p.map foldChar = s.map foldChar) := by
  intro p
  induction p with
  | nil =>
    intro s _
    rw [likeMatch_nil]
    cases s <;> simp
  | cons c p ih =>
    intro s hp
    obtain ⟨hc, hcu⟩ := hp c (List.mem_cons_self c p)
    have hp' : ∀ c' ∈ p, c' ≠ '%' ∧ c' ≠ '_' :=
      fun c' h' => hp c' (List.mem_cons_of_mem c h')
    cases s with
    | nil =>
      rw [likeMatch_cons_nil p hc]
      simp
    | cons d s' =>
      rw [likeMatch_cons_cons p d s' hc, if_neg hcu]
      simp only [Bool.and_eq_true, beq_iff_eq, List.map_cons, List.cons.injEq]
      rw [ih s' hp']

/-- A pattern starting with `%` matches a string iff the rest of the
pattern matches some suffix. -/
theorem likeMatch_pct_iff (p s : List Char) :
    likeMatch ('%' :: p) s = true ↔
      ∃ u v, s = u ++ v ∧ likeMatch p v = true := by
  rw [likeMatch_pct, List.any_eq_true]
  constructor
  · rintro ⟨v, hv, h⟩
    obtain ⟨u, hu⟩ := (List.mem_tails v s).mp hv
    exact ⟨u, v, hu.symm, h⟩
  · rintro ⟨u, v, rfl, h⟩
    exact ⟨v, (List.mem_tails v (u ++ v)).mpr ⟨u, rfl⟩, h⟩

theorem likeMatch_pct_singleton (s : List Char) : likeMatch ['%'] s = true := by
  rw [likeMatch_pct, List.any_eq_true]
  exact ⟨[], by simp [List.mem_tails], rfl⟩

/-- A wildcard-free pattern followed by `%` matches a string iff the
string starts, up to ASCII fold, with the pattern. -/
theorem likeMatch_trailing_pct :
    ∀ (m s : List Char), (∀ c ∈ m, c ≠ '%' ∧ c ≠ '_') →
      (likeMatch (m ++ ['%']) s = true ↔
        ∃ u v, s = u ++ v ∧ m.map foldChar = u.map foldChar) := by
  intro m
  induction m with
  | nil =>
    intro s _
    simp only [List.nil_append]
    constructor
    · intro _
      exact ⟨[], s, rfl, rfl⟩
    · intro _
      exact likeMatch_pct_singleton s
  | cons c m' ih =>
    intro s hm
    obtain ⟨hc, hcu⟩ := hm c (List.mem_cons_self c m')
    have hm' : ∀ c' ∈ m', c' ≠ '%' ∧ c' ≠ '_' :=
      fun c' h' => hm c' (List.mem_cons_of_mem c h')
    rw [List.cons_append]
    cases s with
    | nil =>
      rw [likeMatch_cons_nil _ hc]
      constructor
      · intro h
        exact absurd h (by simp)
      · rintro ⟨u, v, huv, hmap⟩
        obtain ⟨rfl, -⟩ := List.append_eq_nil.mp huv.symm
        simp at hmap
    | cons d s' =>
      rw [likeMatch_cons_cons _ d s' hc, if_neg hcu]
      simp only [Bool.and_eq_true, beq_iff_eq]
      rw [ih s' hm']
      constructor
      · rintro ⟨hfc, u, v, rfl, hmap⟩
        refine ⟨d :: u, v, rfl, ?_⟩
        simp only [List.map_cons, List.cons.injEq]
        exact ⟨hfc, hmap⟩
      · rintro ⟨u, v, huv, hmap⟩
        cases u with
        | nil => simp at hmap
        | cons a u' =>
          injection huv with h1 h2
          subst h1
          simp only [List.map_cons, List.cons.injEq] at hmap
          exact ⟨hmap.1, u', v, h2, hmap.2⟩

/-- The `%m%` pattern (m wildcard-free) matches a string iff `m` occurs,
up to ASCII fold, as a contiguous segment. -/
theorem likeMatch_pct_mid_pct (m s : List Char)
    (hm : ∀ c ∈ m, c ≠ '%' ∧ c ≠ '_') :
    likeMatch ('%' :: (m ++ ['%'])) s = true ↔
      ∃ u w v, s = u ++ w ++ v ∧ m.map foldChar = w.map foldChar := by
  rw [likeMatch_pct_iff]
  constructor
  · rintro ⟨u, rest, rfl, h⟩
    obtain ⟨w, v, rfl, hmap⟩ := (likeMatch_trailing_pct m rest hm).mp h
    exact ⟨u, w, v, by rw [List.append_assoc], hmap⟩
  · rintro ⟨u, w, v, rfl, hmap⟩
    refine ⟨u, w ++ v, by rw [List.append_assoc], ?_⟩
    exact (likeMatch_trailing_pct m _ hm).mpr ⟨w, v, rfl, hmap⟩

/-- Occurrences through `map`: a fold-image of `m` occurs contiguously
in `s` iff `map foldChar m` occurs literally in `map foldChar s`. -/
theorem occ_map_iff (m s : List Char) :
    (∃ u w v, s = u ++ w ++ v ∧ m.map foldChar = w.map foldChar) ↔
      (∃ a b, s.map foldChar = a ++ m.map foldChar ++ b) := by
  constructor
  · rintro ⟨u, w, v, rfl, hmap⟩
    refine ⟨u.map foldChar, v.map foldChar, ?_⟩
    rw [List.map_append, List.map_append, hmap]
  · rintro ⟨a, b, h⟩
    obtain ⟨s₁, s₂, rfl, h1, h2⟩ := List.map_eq_append_iff.mp h
    obtain ⟨u, w, rfl, hu, hw⟩ := List.map_eq_append_iff.mp h1
    exact ⟨u, w, s₂, by rw [List.append_assoc], hw.symm⟩

/-- Occurrence in a cons: either the pattern starts at the head or it
occurs in the tail. -/
theorem occ_cons_iff (p : List Char) (c : Char) (s : List Char) :
    (∃ a b, c :: s = a ++ p ++ b) ↔
      (∃ b, c :: s = p ++ b) ∨ (∃ a b, s = a ++ p ++ b) := by
  constructor
  · rintro ⟨a, b, h⟩
    cases a with
    | nil => exact Or.inl ⟨b, by simpa using h⟩
    | cons a' as =>
      injection h with h1 h2
      exact Or.inr ⟨as, b, h2⟩
  · rintro (⟨b, h⟩ | ⟨a, b, h⟩)
    · exact ⟨[], b, by simpa using h⟩
    · refine ⟨c :: a, b, ?_⟩
      rw [h]
      rfl

theorem head_of_eq_append {p b : List Char} {c : Char} {s : List Char}
    (h : c :: s = p ++ b) (hp : p ≠ []) : ∃ tl, p = c :: tl := by
  cases p with
  | nil => exact absurd rfl hp
  | cons x tl =>
    injection h with h1 _
    exact ⟨tl, by rw [h1]⟩

/-- If a concatenation `s ++ t` equals `p ++ b`, then either `s` begins
with all of `p`, or `p` extends past `s` into `t`. -/
theorem split_along_append :
    ∀ (s t p b : List Char), s ++ t = p ++ b →
      (∃ b', s = p ++ b') ∨
      (∃ p₂, p = s ++ p₂ ∧ p₂ ≠ [] ∧ ∃ b', t = p₂ ++ b') := by
  intro s
  induction s with
  | nil =>
    intro t p b h
    cases p with
    | nil => exact Or.inl ⟨[], rfl⟩
    | cons x p' =>
      right
      exact ⟨x :: p', rfl, by simp, b, by simpa using h⟩
  | cons c s' ih =>
    intro t p b h
    cases p with
    | nil => exact Or.inl ⟨c :: s', rfl⟩
    | cons d p' =>
      rw [List.cons_append] at h
      injection h with h1 h2
      subst h1
      rcases ih t p' b h2 with ⟨b', hb⟩ | ⟨p₂, hp, hne, b', hb⟩
      · exact Or.inl ⟨b', by rw [List.cons_append, hb]⟩
      · exact Or.inr ⟨p₂, by rw [List.cons_append, hp], hne, b', hb⟩

/-- Occurrence in an append decomposes into: inside the left part,
inside the right part, or straddling the boundary. -/
theorem occ_append_iff (p s t : List Char) :
    (∃ a b, s ++ t = a ++ p ++ b) ↔
      (∃ a b, s = a ++ p ++ b) ∨ (∃ a b, t = a ++ p ++ b) ∨
      (∃ p₁ p₂, p = p₁ ++ p₂ ∧ p₁ ≠ [] ∧ p₂ ≠ [] ∧
        (∃ a, s = a ++ p₁) ∧ (∃ b, t = p₂ ++ b)) := by
  constructor
  · show (∃ a b, s ++ t = a ++ p ++ b) → _
    rintro ⟨a, b, h⟩
    rcases split_along_append s t (a ++ p) b (by rw [h, List.append_assoc]) with
      ⟨b', hb⟩ | ⟨p₂, hp, hne, b', hb⟩
    · exact Or.inl ⟨a, b', by rw [hb, List.append_assoc]⟩
    · -- a ++ p = s ++ p₂ : p₂ is a suffix of p or includes part of a
      rcases split_along_append a p s p₂ hp with
        ⟨s', hs⟩ | ⟨q, hq, hqne, s', hs⟩
      · -- a = s ++ s' : the occurrence lies inside t
        right; left
        refine ⟨s', b, ?_⟩
        have hst : s ++ t = s ++ (s' ++ (p ++ b)) := by
          rw [h, hs]
          simp
        have ht : t = s' ++ (p ++ b) := List.append_cancel_left hst
        rw [ht, List.append_assoc]
      · -- s = a ++ q with q ≠ [] : straddle (or p inside s when p₂ covers nothing extra)
        -- hq : s = a ++ q, hs : p = q ++ s' ... recompute: split gives s = a ++ q? check orientation
        right; right
        refine ⟨q, p₂, ?_, hqne, hne, ⟨a, hq⟩, ⟨b', hb⟩⟩
        -- hp : a ++ p = s ++ p₂, hq : s = a ++ q ⊢ p = q ++ p₂
        have : a ++ p = (a ++ q) ++ p₂ := by rw [← hq, hp]
        rw [List.append_assoc] at this
        exact List.append_cancel_left this
  · rintro (⟨a, b, h⟩ | ⟨a, b, h⟩ | ⟨p₁, p₂, hp, -, -, ⟨a, ha⟩, ⟨b, hb⟩⟩)
    · exact ⟨a, b ++ t, by rw [h]; simp⟩
    · exact ⟨s ++ a, b, by rw [h]; simp⟩
    · refine ⟨a, b, ?_⟩
      rw [ha, hb, hp]
      simp

/-- Occurrence in `s ++ [c]`: inside `s`, or ending exactly at `c`. -/
theorem occ_concat_iff (p s : List Char) (c : Char) :
    (∃ a b, s ++ [c] = a ++ p ++ b) ↔
      (∃ a b, s = a ++ p ++ b) ∨ (∃ a, s ++ [c] = a ++ p) := by
  constructor
  · rintro ⟨a, b, h⟩
    rcases List.eq_nil_or_concat b with rfl | ⟨b', c', rfl⟩
    · exact Or.inr ⟨a, by simpa using h⟩
    · left
      have h' : s ++ [c] = (a ++ p ++ b') ++ [c'] := by
        rw [h]
        simp
      obtain ⟨hs, -⟩ := List.append_inj' h' rfl
      exact ⟨a, b', hs⟩
  · rintro (⟨a, b, h⟩ | ⟨a, h⟩)
    · exact ⟨a, b ++ [c], by rw [h]; simp⟩
    · exact ⟨a, [], by rw [h]; simp⟩

theorem last_of_eq_append {a p : List Char} {c : Char} {s : List Char}
    (h : s ++ [c] = a ++ p) (hp : p ≠ []) : ∃ q, p = q ++ [c] := by
  rcases List.eq_nil_or_concat p with rfl | ⟨q, d, rfl⟩
  · exact absurd rfl hp
  · have h' : s ++ [c] = (a ++ q) ++ [d] := by rw [h]; simp
    obtain ⟨-, hc⟩ := List.append_inj' h' rfl
    injection hc with hc
    refine ⟨q, ?_⟩
    rw [hc]
    exact List.concat_eq_append q d

/-- If two quote-free lists are each followed by a quote and the
concatenations agree, the lists agree. -/
theorem quote_free_append :
    ∀ (x T b : List Char), (∀ c ∈ x, c ≠ '"') → (∀ c ∈ T, c ≠ '"') →
      x ++ ['"'] = T ++ '"' :: b → x = T ∧ b = [] := by
  intro x
  induction x with
  | nil =>
    intro T b _ hT h
    cases T with
    | nil =>
      injection h with _ h2
      exact ⟨rfl, h2.symm⟩
    | cons t T' =>
      injection h with h1 _
      exact absurd h1.symm (hT t (List.mem_cons_self t T'))
  | cons c x' ih =>
    intro T b hx hT h
    cases T with
    | nil =>
      injection h with h1 _
      exact absurd h1 (hx c (List.mem_cons_self c x'))
    | cons t T' =>
      injection h with h1 h2
      obtain ⟨hx', hb⟩ := ih T' b
        (fun c' h' => hx c' (List.mem_cons_of_mem c h'))
        (fun c' h' => hT c' (List.mem_cons_of_mem t h')) h2
      exact ⟨by rw [h1, hx'], hb⟩

/-- In `x ++ ['"']` with `x` quote-free, the only quote is the last
character: any decomposition `as ++ '"' :: R` forces `as = x`, `R = []`. -/
theorem quote_free_first_quote :
    ∀ (x as R : List Char), (∀ c ∈ x, c ≠ '"') →
      x ++ ['"'] = as ++ '"' :: R → as = x ∧ R = [] := by
  intro x
  induction x with
  | nil =>
    intro as R _ h
    cases as with
    | nil =>
      injection h with _ h2
      exact ⟨rfl, h2.symm⟩
    | cons a as' =>
      injection h with h1 h2
      exact absurd h2 (by simp)
  | cons c x' ih =>
    intro as R hx h
    cases as with
    | nil =>
      injection h with h1 _
      exact absurd h1 (hx c (List.mem_cons_self c x'))
    | cons a as' =>
      injection h with h1 h2
      obtain ⟨has, hR⟩ := ih as' R
        (fun c' h' => hx c' (List.mem_cons_of_mem c h')) h2
      exact ⟨by rw [← h1, has], hR⟩

/-- Occurrence of a quote-delimited pattern inside one quoted item:
possible exactly when the item equals the pattern body. -/
theorem quoted_occ (x T : List Char)
    (hx : ∀ c ∈ x, c ≠ '"') (hT : ∀ c ∈ T, c ≠ '"') :
    (∃ a b, ('"' :: x ++ ['"']) = a ++ ('"' :: T ++ ['"']) ++ b) ↔ x = T := by
  constructor
  · rintro ⟨a, b, h⟩
    cases a with
    | nil =>
      rw [List.nil_append] at h
      injection h with _ h2
      have h2' : x ++ ['"'] = T ++ '"' :: b := by simpa using h2
      exact (quote_free_append x T b hx hT h2').1
    | cons a₀ as =>
      exfalso
      injection h with h1 h2
      have h2' : x ++ ['"'] = as ++ '"' :: (T ++ '"' :: b) := by simpa using h2
      obtain ⟨-, hR⟩ := quote_free_first_quote x as _ hx h2'
      simp at hR
  · rintro rfl
    exact ⟨[], [], by simp⟩

/-- Occurrence of the quote-delimited pattern in a JSON array body:
exactly when some item equals the pattern body. -/
theorem json_body_occ :
    ∀ (xs : List (List Char)) (T : List Char),
      (∀ x ∈ xs, ∀ c ∈ x, c ≠ '"') → T ≠ [] →
      (∀ c ∈ T, c ≠ '"' ∧ c ≠ ',') →
      ((∃ a b, jsonBody xs = a ++ ('"' :: T ++ ['"']) ++ b) ↔ ∃ x ∈ xs, x = T)
  | [], T, _, _, _ => by
    constructor
    · rintro ⟨a, b, h⟩
      rw [show jsonBody [] = [] from rfl] at h
      exact absurd h.symm (by simp)
    · rintro ⟨x, hx, -⟩
      exact absurd hx (by simp)
  | [x], T, hxs, hTne, hT => by
    show (∃ a b, ('"' :: x ++ ['"']) = a ++ ('"' :: T ++ ['"']) ++ b) ↔ _
    rw [quoted_occ x T (hxs x (by simp)) (fun c hc => (hT c hc).1)]
    simp
  | x :: y :: rest, T, hxs, hTne, hT => by
    have hx : ∀ c ∈ x, c ≠ '"' := hxs x (by simp)
    have hxs' : ∀ x' ∈ y :: rest, ∀ c ∈ x', c ≠ '"' :=
      fun x' h' => hxs x' (List.mem_cons_of_mem x h')
    have ih := json_body_occ (y :: rest) T hxs' hTne hT
    show (∃ a b, ('"' :: x ++ ['"']) ++ ',' :: ' ' :: jsonBody (y :: rest)
        = a ++ ('"' :: T ++ ['"']) ++ b) ↔ _
    rw [occ_append_iff]
    constructor
    · rintro (h | h | ⟨p₁, p₂, hp, hp1, hp2, ⟨a, ha⟩, ⟨b, hb⟩⟩)
      · exact ⟨x, by simp, (quoted_occ x T hx (fun c hc => (hT c hc).1)).mp h⟩
      · -- occurrence inside ", " ++ body: strip the separator
        rw [occ_cons_iff] at h
        rcases h with ⟨b', hb'⟩ | h
        · obtain ⟨tl, habs⟩ := head_of_eq_append hb' (by simp)
          have : (',' : Char) = '"' := by
            have := congrArg (fun l => l.head?) habs
            simpa using this.symm
          exact absurd this (by decide)
        · rw [occ_cons_iff] at h
          rcases h with ⟨b', hb'⟩ | h
          · obtain ⟨tl, habs⟩ := head_of_eq_append hb' (by simp)
            have : (' ' : Char) = '"' := by
              have := congrArg (fun l => l.head?) habs
              simpa using this.symm
            exact absurd this (by decide)
          · obtain ⟨z, hz, hzT⟩ := ih.mp h
            exact ⟨z, List.mem_cons_of_mem x hz, hzT⟩
      · -- straddle: the second piece would start with ',', not a
        -- pattern character
        exfalso
        obtain ⟨tl, htl⟩ := head_of_eq_append hb hp2
        have hmem : ',' ∈ ('"' :: T ++ ['"']) := by
          rw [hp, htl]
          exact List.mem_append_right p₁ (List.mem_cons_self ',' tl)
        rcases List.mem_append.mp hmem with hq | hq
        · rcases List.mem_cons.mp hq with hq' | hq'
          · exact absurd hq' (by decide)
          · exact (hT ',' hq').2 rfl
        · exact absurd (List.mem_singleton.mp hq) (by decide)
    · rintro ⟨z, hz, rfl⟩
      rcases List.mem_cons.mp hz with rfl | hz'
      · left
        exact (quoted_occ z z hx (fun c hc => (hT c hc).1)).mpr rfl
      · right; left
        obtain ⟨a, b, hab⟩ := ih.mpr ⟨z, hz', rfl⟩
        refine ⟨',' :: ' ' :: a, b, ?_⟩
        rw [hab]
        simp

/-- Occurrence in the bracketed JSON text reduces to occurrence in the
body: the pattern starts and ends with a quote, never a bracket. -/
theorem json_full_occ (xs : List (List Char)) (T : List Char) :
    (∃ a b, ('[' :: (jsonBody xs ++ [']'])) = a ++ ('"' :: T ++ ['"']) ++ b) ↔
      (∃ a b, jsonBody xs = a ++ ('"' :: T ++ ['"']) ++ b) := by
  constructor
  · intro h
    rw [occ_cons_iff] at h
    rcases h with ⟨b, hb⟩ | h
    · obtain ⟨tl, htl⟩ := head_of_eq_append hb (by simp)
      have : ('[' : Char) = '"' := by
        have := congrArg (fun l => l.head?) htl
        simpa using this.symm
      exact absurd this (by decide)
    · rw [occ_concat_iff] at h
      rcases h with h | ⟨a, ha⟩
      · exact h
      · exfalso
        obtain ⟨q, hq⟩ := last_of_eq_append ha (by simp)
        have h' : ('"' :: T) ++ ['"'] = q ++ [']'] := hq
        obtain ⟨-, habs⟩ := List.append_inj' h' rfl
        injection habs with habs
        exact absurd habs (by decide)
  · rintro ⟨a, b, h⟩
    refine ⟨'[' :: a, b ++ [']'], ?_⟩
    rw [h]
    simp

/-- ASCII folding commutes with the JSON body serialization (the
structural characters are fixed points of the fold). -/
theorem fold_jsonBody :
    ∀ xs : List (List Char),
      (jsonBody xs).map foldChar = jsonBody (xs.map (List.map foldChar))
  | [] => rfl
  | [x] => by
    show ('"' :: x ++ ['"']).map foldChar = '"' :: x.map foldChar ++ ['"']
    simp [foldChar]
  | x :: y :: rest => by
    show (('"' :: x ++ ['"']) ++ ',' :: ' ' :: jsonBody (y :: rest)).map foldChar
        = ('"' :: x.map foldChar ++ ['"'])
          ++ ',' :: ' ' :: jsonBody ((y :: rest).map (List.map foldChar))
    rw [List.map_append, ← fold_jsonBody (y :: rest)]
    simp [foldChar]

/-- ASCII folding of the full JSON text of the tags column. -/
theorem fold_jsonTags (tl : List String) :
    (jsonTags tl).map foldChar
      = '[' :: jsonBody ((tl.map String.data).map (List.map foldChar)) ++ [']'] := by
  unfold jsonTags
  simp [List.map_append, fold_jsonBody, foldChar]

theorem all_guarded (o : Option String) (f : String → Todo → Bool) (t : Todo) :
    ((match o with
      | some s => if s ≠ "" then [f s] else []
      | none => ([] : List (Todo → Bool))).all (fun c => c t) = true)
    ↔ (∀ s, o = some s → s ≠ "" → f s t = true) := by
  cases o with
  | none => simp
  | some s => by_cases hs : s = "" <;> simp [hs]

theorem all_date (o : Option PyDateTime) (f : PyDateTime → Todo → Bool) (t : Todo) :
    ((match o with
      | some d => [f d]
      | none => ([] : List (Todo → Bool))).all (fun c => c t) = true)
    ↔ (∀ d, o = some d → f d t = true) := by
  cases o <;> simp

theorem all_status (st : Option String) (t : Todo) :
    ((if st == some "completed" then [fun t : Todo => t.completed == true]
      else if st == some "pending" then [fun t : Todo => t.completed == false]
      else ([] : List (Todo → Bool))).all (fun c => c t) = true)
    ↔ ((st = some "completed" → t.completed = true) ∧
       (st = some "pending" → t.completed = false)) := by
  by_cases h1 : st = some "completed"
  · simp [h1]
  · by_cases h2 : st = some "pending" <;> simp [h1, h2]

/-- The tag criterion for a wildcard-free filter tag selects exactly the
tasks whose tag set contains it up to ASCII case. -/
theorem tag_cond_iff (tg : String) (tl : List String) (t : Todo)
    (htags : t.tags = some tl) (hval : validate_tags tl = true)
    (hfil : plainFilterTag tg) :
    (tag_cond tg t = true ↔ ∃ x ∈ tl, eqUpToCase x tg) := by
  obtain ⟨htne, hchars₀⟩ := hfil
  have hchars : ∀ c ∈ tg.data, (c.isAlphanum || c == ' ' || c == '-') = true :=
    fun c hc => List.all_eq_true.mp hchars₀ c hc
  have htagchars : ∀ x ∈ tl, ∀ c ∈ x.data, tagCharOk c = true := by
    simp only [validate_tags, Bool.and_eq_true, List.all_eq_true] at hval
    intro x hx c hc
    exact (hval.2 x hx).2 c hc
  unfold tag_cond
  rw [htags]
  have hm : ∀ c ∈ ('"' :: tg.data) ++ ['"'], c ≠ '%' ∧ c ≠ '_' := by
    intro c hc
    rcases List.mem_append.mp hc with hc | hc
    · rcases List.mem_cons.mp hc with rfl | hc
      · exact ⟨by decide, by decide⟩
      · obtain ⟨h1, h2, -⟩ := filterCharOk_props c (hchars c hc)
        exact ⟨h1, h2⟩
    · rw [List.mem_singleton.mp hc]
      exact ⟨by decide, by decide⟩
  have hpat : ('%' :: '"' :: tg.data ++ '"' :: '%' :: ([] : List Char))
      = '%' :: ((('"' :: tg.data) ++ ['"']) ++ ['%']) := by simp
  rw [hpat, likeMatch_pct_mid_pct _ _ hm, occ_map_iff]
  have hfm : (('"' :: tg.data) ++ ['"']).map foldChar
      = ('"' :: tg.data.map foldChar) ++ ['"'] := by
    simp [foldChar]
  rw [hfm, fold_jsonTags, List.cons_append]
  rw [json_full_occ]
  rw [json_body_occ ((tl.map String.data).map (List.map foldChar))
    (tg.data.map foldChar) ?hq ?hne ?hT]
  case hq =>
    intro x hx c hc
    obtain ⟨y, hy, rfl⟩ := List.mem_map.mp hx
    obtain ⟨z, hz, rfl⟩ := List.mem_map.mp hy
    obtain ⟨c₀, hc₀, rfl⟩ := List.mem_map.mp hc
    exact (tagCharOk_fold_ne c₀ (htagchars z hz c₀ hc₀)).1
  case hne =>
    intro h
    rw [List.map_eq_nil_iff] at h
    apply htne
    cases tg with
    | mk l => exact congrArg String.mk (h : l = [])
  case hT =>
    intro c hc
    obtain ⟨c₀, hc₀, rfl⟩ := List.mem_map.mp hc
    obtain ⟨-, -, h3, h4, -⟩ := filterCharOk_props c₀ (hchars c₀ hc₀)
    exact ⟨h3, h4⟩
  constructor
  · rintro ⟨x, hx, hxT⟩
    obtain ⟨y, hy, rfl⟩ := List.mem_map.mp hx
    obtain ⟨z, hz, rfl⟩ := List.mem_map.mp hy
    exact ⟨z, hz, hxT⟩
  · rintro ⟨x, hx, hxT⟩
    exact ⟨x.data.map foldChar,
      List.mem_map.mpr ⟨x.data, List.mem_map.mpr ⟨x, hx, rfl⟩, rfl⟩, hxT⟩

/-- C7 counterexample: the filter tag "a_c" selects a task whose tag set
is ["abc"] — the `_` in the LIKE pattern `%"a_c"%` matches the `b` — so
the tag criterion does not select exactly the tasks whose tag set
contains the filter tag as a member. -/
theorem tag_filter_wildcard_counterexample :
    validate_tags ["abc"] = true ∧
    tag_cond "a_c"
      ⟨1, 7, "a", none, false, ⟨2024, 1, 1, 0⟩, none, some ["abc"],
        none, none⟩ = true ∧
    get_all
      ⟨[⟨1, 7, "a", none, false, ⟨2024, 1, 1, 0⟩, none, some ["abc"],
          none, none⟩], 2⟩
      (some 7) none none none none none (some "a_c") none none
      = [⟨1, 7, "a", none, false, ⟨2024, 1, 1, 0⟩, none, some ["abc"],
          none, none⟩] ∧
    ¬ ("a_c" ∈ (["abc"] : List String)) := by
  refine ⟨by decide, by decide, ?_, by decide⟩
  decide

/-- C7 amended: supplied criteria combine by logical AND and an absent
criterion imposes no constraint; tasks with no due_date never match the
(otherwise inclusive) due_before/due_after bounds; the tag criterion
matches the quoted tag against the JSON text of the tag set with SQL
LIKE — ASCII-case-insensitively, with % and _ in the supplied tag acting
as wildcards — so for a wildcard-free tag drawn from the tag alphabet it
selects exactly the tasks whose tag set contains it up to ASCII case
(the counterexample shows exact membership fails for tags containing
`_`). -/
theorem filter_semantics_amended :
    (∀ (store : Store) (uid : Option Nat) (se st pr : Option String)
       (db da : Option PyDateTime) (tg sb so : Option String) (t : Todo),
      t ∈ get_all store uid se st pr db da tg sb so ↔
        t ∈ apply_user_filter uid store.todos ∧
        ((∀ s, se = some s → s ≠ "" → search_cond s t = true) ∧
         ((st = some "completed" → t.completed = true) ∧
          (st = some "pending" → t.completed = false)) ∧
         (∀ p, pr = some p → p ≠ "" → priority_cond p t = true) ∧
         (∀ d, db = some d → due_before_cond d t = true) ∧
         (∀ d, da = some d → due_after_cond d t = true) ∧
         (∀ s, tg = some s → s ≠ "" → tag_cond s t = true))) ∧
    (∀ (d : PyDateTime) (t : Todo), t.due_date = none →
      due_before_cond d t = false ∧ due_after_cond d t = false) ∧
    (∀ (d dd : PyDateTime) (t : Todo), t.due_date = some dd →
      (due_before_cond d t = true ↔ dtLE dd d) ∧
      (due_after_cond d t = true ↔ dtLE d dd)) ∧
    (∀ (tg : String) (tl : List String) (t : Todo),
      t.tags = some tl → validate_tags tl = true → plainFilterTag tg →
      (tag_cond tg t = true ↔ ∃ x ∈ tl, eqUpToCase x tg)) := by
  refine ⟨?_, ?_, ?_, tag_cond_iff⟩
  · intro store uid se st pr db da tg sb so t
    rw [get_all, mem_apply_sort, List.mem_filter]
    refine and_congr_right fun _ => ?_
    unfold matches_filters build_filters
    simp only [List.all_append, Bool.and_eq_true]
    rw [all_guarded se search_cond t, all_status st t,
      all_guarded pr priority_cond t, all_date db due_before_cond t,
      all_date da due_after_cond t, all_guarded tg tag_cond t]
    tauto
  · intro d t h
    unfold due_before_cond due_after_cond
    rw [h]
    exact ⟨rfl, rfl⟩
  · intro d dd t h
    unfold due_before_cond due_after_cond
    rw [h]
    simp

/-- Witness for `filter_semantics_amended`: the tag filter "ABC" on a
task tagged ["abc"] reduces, for this wildcard-free tag, to membership
up to ASCII case. -/
theorem filter_semantics_amended_witness :
    tag_cond "ABC"
      ⟨1, 7, "a", none, false, ⟨2024, 1, 1, 0⟩, none, some ["abc"],
        none, none⟩ = true ↔
      ∃ x ∈ (["abc"] : List String), eqUpToCase x "ABC" :=
  filter_semantics_amended.2.2.2 "ABC" ["abc"]
    ⟨1, 7, "a", none, false, ⟨2024, 1, 1, 0⟩, none, some ["abc"],
      none, none⟩
    rfl (by decide) (by decide)

end TodoBack
